import Mathlib

/-!
Verification of the elusiv on-chain program core: a shallow embedding of the
proof-verification state machine and its fee/settlement pipeline, translated
from `src/elusiv/src/processor/proof.rs` and `src/src/proof/verifier.rs`.

Machine integers (u8/u16/u32/u64/usize) are embedded as `Nat`, with explicit
`% 2^32` / `% 2^64` wrapping where overflow matters.  Fallible Rust code
returns `Except`.  External collaborators (arkworks field/curve arithmetic,
token/fee/oracle code, account primitives) that are not part of this
repository's core are abstracted as parameters; parts of this repository that
are referenced but whose sources are absent are modelled from the
specification and marked as such in their doc comments.
-/

namespace Elusiv

/-- The `ElusivError` variants used by the embedded functions
(`crate::error::ElusivError`). -/
inductive ElusivError where
  | InvalidAccount
  | InvalidAccountState
  | InvalidMerkleRoot
  | InvalidPublicInputs
  | InvalidAmount
  | InvalidInstructionData
  | InvalidFeeVersion
  | ComputationIsAlreadyFinished
  | ComputationIsNotYetFinished
  | CouldNotInsertNullifier
  | FeatureNotAvailable
  | CouldNotProcessProof
  deriving DecidableEq, Repr

/-- Errors of an embedded processor function: a program error raised by a
`guard!` or `?`-propagation (`prog`), a failure of an external collaborator
call (`ext`), or a Rust panic such as an out-of-bounds index (`panicked`). -/
inductive PErr where
  | prog (e : ElusivError)
  | ext
  | panicked
  deriving DecidableEq, Repr

/-- Embeds `VerificationState` (linear lifecycle of a `VerificationAccount`). -/
inductive VerificationState where
  | None
  | FeeTransferred
  | ProofSetup
  | InsertNullifiers
  | Finalized
  | Closed
  deriving DecidableEq, Repr

def U32_MOD : Nat := 2 ^ 32

def U64_MOD : Nat := 2 ^ 64

/-- Embeds `TIMESTAMP_BITS_PRUNING` from `src/elusiv/src/processor/proof.rs` line 780. -/
def TIMESTAMP_BITS_PRUNING : Nat := 5

/-- Embeds `is_timestamp_valid` from `src/elusiv/src/processor/proof.rs` lines 781-783:
`(asserted_time >> TIMESTAMP_BITS_PRUNING) <= (timestamp >> TIMESTAMP_BITS_PRUNING)`
(u64 values embedded as `Nat`; `>>` on u64 never overflows). -/
def isTimestampValid (assertedTime timestamp : Nat) : Bool :=
  decide (assertedTime >>> TIMESTAMP_BITS_PRUNING ≤ timestamp >>> TIMESTAMP_BITS_PRUNING)

/-- Embeds `minimum_commitment_mt_index` from `src/elusiv/src/processor/proof.rs`
lines 790-799, embedded with wrapping u32 arithmetic (`% 2^32`).
Modelled from the spec: the protocol constant `MT_COMMITMENT_COUNT` lives in
`crate::state`, which is not under src/; it is taken as the parameter `M`
(spec §6: commitment count per MT is a protocol constant `MT_COMMITMENT_COUNT`;
`usize_as_u32_safe` additionally requires it to fit in a u32). -/
def minimumCommitmentMtIndex (M mtIndex commitmentCount commitmentQueueLen : Nat) :
    Nat × Nat :=
  let s := (commitmentCount + commitmentQueueLen) % U32_MOD
  (s % M, (mtIndex + s / M) % U32_MOD)

/-! ## The partial Groth16 verifier (`src/src/proof/verifier.rs`)

The BN254 field and curve types (`Fq`, `Fq2`, `Fq12`, `G1Affine`,
`G2Affine`) and their arithmetic come from the external arkworks crates;
they are abstracted as type parameters together with a record of the
operations the embedded code calls.  The round-indexed control flow, RAM
accesses and constants are translated from the source. -/

/-- A 32-byte word `[u8; 32]` in little-endian byte order (`crate::types::U256`);
byte `i` is `v.getD i 0`. -/
def U256B : Type := List Nat

/-- Embeds `get_bit_be` from `src/src/proof/verifier.rs` lines 147-150.  Note the
source compares the shifted byte with `1` (`v[31 - byte] >> (7 - (index % 8)) == 1`),
it does not mask out the higher bits. -/
def getBitBe (v : U256B) (index : Nat) : Bool :=
  decide (List.getD v (31 - index / 8) 0 >>> (7 - index % 8) = 1)

/-- Embeds `find_first_non_zero_be` from `src/src/proof/verifier.rs` lines 153-160:
first (most-significant-first) bit position at which the shifted byte equals
`1`, or 256 when none exists. -/
def findFirstNonZeroBe (v : U256B) : Nat :=
  match (List.range 32).findSome? (fun byte =>
      (List.range 8).findSome? (fun bit =>
        if List.getD v (31 - byte) 0 >>> (7 - bit) = 1
        then some (byte * 8 + bit) else none)) with
  | some k => k
  | none => 256

/-- Embeds `ark_ec` projective G1 point: three `Fq` coordinates (stored
coordinate-wise in `ram_fq` by `write_g1_projective`). -/
structure G1Proj (Fq : Type) where
  x : Fq
  y : Fq
  z : Fq

/-- Embeds `G2HomProjective` from `src/src/proof/verifier.rs` lines 230-235. -/
structure G2HomProjective (Fq2 : Type) where
  x : Fq2
  y : Fq2
  z : Fq2

/-- The three offset-addressable scratch RAMs of a `VerificationAccount`
(`ram_fq`, `ram_fq2`, `ram_fq12`), each a map from offset to stored value. -/
structure Ram (Fq Fq2 Fq12 : Type) where
  fq : Nat → Fq
  fq2 : Nat → Fq2
  fq12 : Nat → Fq12

/-- Embeds `RAM::write`: store `v` at offset `o`. -/
def ramWrite {α : Type} (r : Nat → α) (v : α) (o : Nat) : Nat → α :=
  fun i => if i = o then v else r i

/-- Embeds `read_g1_projective!` (lines 97-99): read three consecutive `Fq` cells. -/
def readG1Projective {Fq : Type} (r : Nat → Fq) (o : Nat) : G1Proj Fq :=
  ⟨r o, r (o + 1), r (o + 2)⟩

/-- Embeds `write_g1_projective` (lines 140-144). -/
def writeG1Projective {Fq : Type} (r : Nat → Fq) (p : G1Proj Fq) (o : Nat) :
    Nat → Fq :=
  ramWrite (ramWrite (ramWrite r p.x o) p.y (o + 1)) p.z (o + 2)

/-- The external arkworks operations called by the embedded verifier code,
abstracted over the field/curve carrier types. -/
structure VerifierOps (Fq Fq2 Fq12 G1A G2A : Type) where
  g1pZero : G1Proj Fq
  g1aZero : G1A
  g2aZero : G2A
  fq2Zero : Fq2
  fq12Zero : Fq12
  doubleInPlace : G1Proj Fq → G1Proj Fq
  addAssignMixed : G1Proj Fq → G1A → G1Proj Fq
  addAssign : G1Proj Fq → G1Proj Fq → G1Proj Fq
  intoAffine : G1Proj Fq → G1A
  fq12Beq : Fq12 → Fq12 → Bool

/-- The verifying-key capability used by `verify_partial` and
`prepare_public_inputs_partial`.  Modelled from the spec: the concrete
verifying keys (`crate::proof::vkey`) are not under src/; the spec (§9,
Design Notes) describes exactly this capability record, with the three
cumulative round thresholds, `PUBLIC_INPUTS_COUNT`, `gamma_abc_g1(i)`,
`gamma_abc_g1_0()` and `alpha_g1_beta_g2()`. -/
structure VKeyData (Fq Fq12 G1A : Type) where
  prepareRounds : Nat
  millerRounds : Nat
  finalExpRounds : Nat
  publicInputsCount : Nat
  gammaAbcG1 : Nat → G1A
  gammaAbcG10 : G1Proj Fq
  alphaG1BetaG2 : Fq12

/-- The fields of the `VerificationAccount` (src/src crate) touched or stored
around the partial verifier: the three scratch RAMs, the prepared-inputs
point, the stored public inputs and the stored proof `(a, b, c)`. -/
structure VerificationAccount (Fq Fq2 Fq12 G1A G2A : Type) where
  ram : Ram Fq Fq2 Fq12
  preparedInputs : G1A
  publicInputs : Nat → U256B
  a : G1A
  b : G2A
  c : G1A

/-- Embeds `prepare_public_inputs_partial` from `src/src/proof/verifier.rs` lines
106-138, one round of the public-input preparation: `mul_round = round % 254`;
a scalar-multiplication round doubles the accumulator read from `ram_fq[3..6]`
(fresh zero when `mul_round == 0`), conditionally adds
`gamma_abc_g1(input_index + 1)` and writes the accumulator back; the
`else` branch would fold the accumulator into `g_ic` at `ram_fq[0..3]` and
emit the prepared inputs after the last input. -/
def preparePublicInputsRound {Fq Fq2 Fq12 G1A G2A : Type}
    (ops : VerifierOps Fq Fq2 Fq12 G1A G2A) (vk : VKeyData Fq Fq12 G1A)
    (round : Nat) (acct : VerificationAccount Fq Fq2 Fq12 G1A G2A)
    (input : U256B) (inputIndex : Nat) :
    Option G1A × VerificationAccount Fq Fq2 Fq12 G1A G2A :=
  let mulRound := round % 254
  let acc : G1Proj Fq :=
    if mulRound = 0 then ops.g1pZero else readG1Projective acct.ram.fq 3
  if mulRound < 254 then
    if mulRound < findFirstNonZeroBe input then (none, acct)
    else
      let acc := ops.doubleInPlace acc
      let acc :=
        if getBitBe input mulRound
        then ops.addAssignMixed acc (vk.gammaAbcG1 (inputIndex + 1)) else acc
      (none, { acct with
        ram := { acct.ram with fq := writeG1Projective acct.ram.fq acc 3 } })
  else
    let gIc :=
      if inputIndex = 0 then vk.gammaAbcG10 else readG1Projective acct.ram.fq 0
    let gIc := ops.addAssign gIc acc
    if inputIndex < vk.publicInputsCount then
      (none, { acct with
        ram := { acct.ram with fq := writeG1Projective acct.ram.fq gIc 0 } })
    else
      (some (ops.intoAffine gIc), acct)

/-- Embeds `verify_partial` from `src/src/proof/verifier.rs` lines 17-95.
The scalar handed to the input preparation is the constant `[0; 32]` and the
Miller-loop phase receives freshly constructed zero values for `a`, `b`, `c`,
`prepared_inputs` and `r` (the commented-out account reads in the source are
not executed).  The bodies of `combined_miller_loop_partial` and
`final_exponentiation_partial` are generated by the `elusiv_computation`
macro of the external `elusiv-interpreter` crate, which is not under src/;
Modelled from the spec (§4.1): each is a round-indexed step reading and
writing only the account's scratch RAM and its explicit arguments, passed
here as the function parameters `millerStep` and `finalExpStep`. -/
def verifyPartialStep {Fq Fq2 Fq12 G1A G2A : Type}
    (ops : VerifierOps Fq Fq2 Fq12 G1A G2A) (vk : VKeyData Fq Fq12 G1A)
    (millerStep : Nat → Ram Fq Fq2 Fq12 → G1A → G2A → G1A → G1A →
      G2HomProjective Fq2 →
      Except ElusivError (Option Fq12) × Ram Fq Fq2 Fq12 × G2HomProjective Fq2)
    (finalExpStep : Nat → Ram Fq Fq2 Fq12 → Fq12 →
      Except ElusivError (Option Fq12) × Ram Fq Fq2 Fq12)
    (round : Nat) (acct : VerificationAccount Fq Fq2 Fq12 G1A G2A) :
    Except ElusivError (Option Bool) × VerificationAccount Fq Fq2 Fq12 G1A G2A :=
  if round < vk.prepareRounds then
    match preparePublicInputsRound ops vk round acct (List.replicate 32 0)
        (round / 254) with
    | (none, acct') =>
      if round = vk.prepareRounds - 1
      then (.error .CouldNotProcessProof, acct')
      else (.ok none, acct')
    | (some preparedInputs, acct') =>
      let ram' := { acct'.ram with
        fq2 := ramWrite (ramWrite (ramWrite acct'.ram.fq2 ops.fq2Zero 0)
          ops.fq2Zero 1) ops.fq2Zero 2 }
      (.ok none, { acct' with preparedInputs := preparedInputs, ram := ram' })
  else if round < vk.millerRounds then
    let step := millerStep (round - vk.prepareRounds) acct.ram
      ops.g1aZero ops.g2aZero ops.g1aZero ops.g1aZero
      ⟨ops.fq2Zero, ops.fq2Zero, ops.fq2Zero⟩
    match step with
    | (.error e, ram', _) => (.error e, { acct with ram := ram' })
    | (.ok none, ram', _) => (.ok none, { acct with ram := ram' })
    | (.ok (some f), ram', _) =>
      (.ok none, { acct with
        ram := { ram' with fq12 := ramWrite ram'.fq12 f 0 } })
  else if round < vk.finalExpRounds then
    let step := finalExpStep (round - vk.millerRounds) acct.ram ops.fq12Zero
    match step with
    | (.error e, ram') => (.error e, { acct with ram := ram' })
    | (.ok none, ram') => (.ok none, { acct with ram := ram' })
    | (.ok (some v), ram') =>
      (.ok (some (ops.fq12Beq vk.alphaG1BetaG2 v)), { acct with ram := ram' })
  else
    (.error .ComputationIsAlreadyFinished, acct)

/-! ## compute_verification (`src/elusiv/src/processor/proof.rs` lines 339-383) -/

/-- The slice of the elusiv-crate `VerificationAccount` that
`compute_verification` touches: the lifecycle state, the verdict, and an
abstract scratch component `S` (round counter, RAM, stored proof and inputs) on
which the partial verifier operates. -/
structure ComputeVerificationAccount (S : Type) where
  state : VerificationState
  isVerified : Option Bool
  scratch : S

/-- Embeds `compute_verification` from `src/elusiv/src/processor/proof.rs` lines
339-383.  The elusiv-crate `verify_partial` it invokes is not under src/;
Modelled from the spec (§4.6, §4.1): a step function on the account's scratch
(round counter and RAM) returning the final verdict, no verdict yet, or an
error; the sysvar instruction index only selects the per-transaction round
count inside that step and is absorbed into the `step` parameter.
`isSetup` is `precomputes_account.get_is_setup()`. -/
def computeVerification {S : Type} (isSetup : Bool)
    (step : S → Except ElusivError (Option Bool) × S)
    (acct : ComputeVerificationAccount S) :
    Except ElusivError Unit × ComputeVerificationAccount S :=
  if ¬ isSetup then (.error .InvalidAccountState, acct)
  else if ¬ (acct.state = .None ∨ acct.state = .ProofSetup) then
    (.error .InvalidAccountState, acct)
  else if acct.isVerified.isSome then (.error .ComputationIsAlreadyFinished, acct)
  else
    match step acct.scratch with
    | (.ok (some finalResult), s') =>
      (.ok (), { acct with scratch := s', isVerified := some finalResult })
    | (.ok none, s') => (.ok (), { acct with scratch := s' })
    | (.error e, s') =>
      if e = .InvalidAccountState then (.error e, { acct with scratch := s' })
      else (.ok (), { acct with scratch := s', isVerified := some false })

/-- Concrete instantiation of the abstract arkworks operations at carrier
`Unit`, used by witnesses. -/
def unitVerifierOps : VerifierOps Unit Unit Unit Unit Unit where
  g1pZero := ⟨(), (), ()⟩
  g1aZero := ()
  g2aZero := ()
  fq2Zero := ()
  fq12Zero := ()
  doubleInPlace := fun p => p
  addAssignMixed := fun p _ => p
  addAssign := fun p _ => p
  intoAffine := fun _ => ()
  fq12Beq := fun _ _ => true

/-- Concrete verifying-key data with round thresholds 1 ≤ 2 ≤ 3, used by
witnesses. -/
def unitVKey3 : VKeyData Unit Unit Unit where
  prepareRounds := 1
  millerRounds := 2
  finalExpRounds := 3
  publicInputsCount := 1
  gammaAbcG1 := fun _ => ()
  gammaAbcG10 := ⟨(), (), ()⟩
  alphaG1BetaG2 := ()

/-- Concrete no-progress Miller-loop step at carrier `Unit`, used by
witnesses. -/
def unitMillerStep : Nat → Ram Unit Unit Unit → Unit → Unit → Unit → Unit →
    G2HomProjective Unit →
    Except ElusivError (Option Unit) × Ram Unit Unit Unit ×
      G2HomProjective Unit :=
  fun _ r _ _ _ _ hp => (.ok none, r, hp)

/-- Concrete no-progress final-exponentiation step at carrier `Unit`, used by
witnesses. -/
def unitFinalExpStep : Nat → Ram Unit Unit Unit → Unit →
    Except ElusivError (Option Unit) × Ram Unit Unit Unit :=
  fun _ r _ => (.ok none, r)

/-- Concrete verification account at carrier `Unit`, used by witnesses. -/
def unitVerificationAccount : VerificationAccount Unit Unit Unit Unit Unit where
  ram := ⟨fun _ => (), fun _ => (), fun _ => ()⟩
  preparedInputs := ()
  publicInputs := fun _ => []
  a := ()
  b := ()
  c := ()

/-! ## Join-split data model and input checker
(`src/elusiv/src/processor/proof.rs`) -/

/-- Embeds `JoinSplitPublicInputs` (`crate::types`, declared outside src/ but fully
described by the spec §3).  `RawU256` values are embedded as `Nat` in their
raw (`skip_mr`) form; the Montgomery reduction `reduce()` is an external field
operation passed as a parameter `reduce` where needed. -/
structure JoinSplitPublicInputs where
  commitmentCount : Nat
  roots : List (Option Nat)
  nullifierHashes : List Nat
  commitment : Nat
  feeVersion : Nat
  amount : Nat
  fee : Nat
  tokenId : Nat

/-- Embeds `SendPublicInputs` (spec §3). -/
structure SendPublicInputs where
  joinSplit : JoinSplitPublicInputs
  recipientAddress : Nat
  recipientIsNonAssociatedTokenAccount : Bool
  currentTime : Nat
  identifier : Nat
  salt : Nat

/-- Embeds `MigratePublicInputs` (spec §3). -/
structure MigratePublicInputs where
  joinSplit : JoinSplitPublicInputs
  currentNsmtRoot : Nat
  nextNsmtRoot : Nat

/-- Embeds `ProofRequest` from `src/elusiv/src/processor/proof.rs` lines 51-55. -/
inductive ProofRequest where
  | Send (publicInputs : SendPublicInputs)
  | Merge (publicInputs : SendPublicInputs)
  | Migrate (publicInputs : MigratePublicInputs)

/-- Embeds `join_split_inputs()` projection used through the `proof_request!` macro. -/
def ProofRequest.joinSplitInputs : ProofRequest → JoinSplitPublicInputs
  | .Send p => p.joinSplit
  | .Merge p => p.joinSplit
  | .Migrate p => p.joinSplit

/-- Modelled from the spec (§3): the narrow `StorageAccount` contract used by
the checker — the elusiv-crate `StorageAccount` is not under src/.
`treesCount` is `get_trees_count()` (index of the active tree) and
`isRootValid` the root-validity test against the active tree. -/
structure StorageModel where
  treesCount : Nat
  isRootValid : Nat → Bool

/-- Modelled from the spec (§3): the narrow `NullifierAccount` contract used
by the checker — the elusiv-crate `NullifierAccount` is not under src/.
`root` is `get_root()` of the archived tree and `canInsert` the membership
test `can_insert_nullifier_hash` (its account-access failure mode is not
modelled). -/
structure NullifierModel where
  root : Nat
  canInsert : Nat → Bool

/-- The per-slot root validation of `check_join_split_public_inputs` lines
827-834: slot `k`'s tree index is compared with the active tree index; an
active-tree root is checked with `is_root_valid`, an archived one against the
nullifier account's recorded root. -/
def rootOk (storage : StorageModel) (n0 n1 : NullifierModel) (ti0 ti1 : Nat)
    (reduce : Nat → Nat) (k r : Nat) : Bool :=
  if (if k = 0 then ti0 else ti1) = storage.treesCount
  then storage.isRootValid (reduce r)
  else decide (reduce r = (if k = 0 then n0 else n1).root)

/-- The roots loop of `check_join_split_public_inputs` lines 819-839: walks
the roots left-to-right keeping the count `k` of `Some` roots seen so far;
a `Some` root occupies slot `k` (a third `Some` root panics on the
`tree_indices[index]` access) and must validate per `rootOk`; a `None` root
is assigned slot 0.  Returns the final `Some` count and the `tree_index`
vector. -/
def rootsLoopAux (storage : StorageModel) (n0 n1 : NullifierModel)
    (ti0 ti1 : Nat) (reduce : Nat → Nat) :
    List (Option Nat) → Nat → Except PErr (Nat × List Nat)
  | [], k => .ok (k, [])
  | some r :: rest, k =>
    if 2 ≤ k then .error .panicked
    else if rootOk storage n0 n1 ti0 ti1 reduce k r then
      match rootsLoopAux storage n0 n1 ti0 ti1 reduce rest (k + 1) with
      | .ok (len, l) => .ok (len, k :: l)
      | .error e => .error e
    else .error (.prog .InvalidMerkleRoot)
  | none :: rest, k =>
    match rootsLoopAux storage n0 n1 ti0 ti1 reduce rest k with
    | .ok (len, l) => .ok (len, 0 :: l)
    | .error e => .error e

/-- Inner `j`-loop of the duplicate check (lines 851-856): a pair of equal
nullifier hashes must sit in distinct slots of the `tree_index` vector. -/
def innerDupAux (nh tIdx : List Nat) (i : Nat) : List Nat → Except PErr Unit
  | [] => .ok ()
  | j :: rest =>
    if i = j then innerDupAux nh tIdx i rest
    else if nh.getD i 0 = nh.getD j 0 then
      if tIdx.getD i 0 ≠ tIdx.getD j 0 then innerDupAux nh tIdx i rest
      else .error (.prog .InvalidPublicInputs)
    else innerDupAux nh tIdx i rest

/-- Outer loop over the nullifier hashes (lines 849-864): per index, the
duplicate check followed by the `can_insert_nullifier_hash` freshness guard
on `nullifier_accounts[tree_index[i]]` (an index ≥ 2 would panic). -/
def nullifierChecksAux (n0 n1 : NullifierModel) (reduce : Nat → Nat)
    (nh tIdx : List Nat) : List Nat → Except PErr Unit
  | [] => .ok ()
  | i :: rest =>
    match innerDupAux nh tIdx i (List.range nh.length) with
    | .error e => .error e
    | .ok _ =>
      let t := tIdx.getD i 0
      if 2 ≤ t then .error .panicked
      else if (if t = 0 then n0 else n1).canInsert (reduce (nh.getD i 0)) then
        nullifierChecksAux n0 n1 reduce nh tIdx rest
      else .error (.prog .CouldNotInsertNullifier)

/-- Embeds `check_join_split_public_inputs` from `src/elusiv/src/processor/proof.rs`
lines 801-867.  `zeroCommitmentRaw` is the constant `ZERO_COMMITMENT_RAW`
(`crate::processor`, not under src/).  The guard order, panic sites and error
kinds follow the source; the local `nullifier_hashes` vector of vectors is
never read after being filled and is omitted. -/
def checkJoinSplitPublicInputs (zeroCommitmentRaw : Nat) (reduce : Nat → Nat)
    (storage : StorageModel) (n0 n1 : NullifierModel) (ti0 ti1 : Nat)
    (pi : JoinSplitPublicInputs) : Except PErr Unit :=
  if pi.commitment = zeroCommitmentRaw then .error (.prog .InvalidPublicInputs)
  else if pi.roots.length = 0 then .error .panicked
  else if (pi.roots.getD 0 none).isNone then .error (.prog .InvalidPublicInputs)
  else if pi.nullifierHashes.length ≠ pi.commitmentCount then
    .error (.prog .InvalidPublicInputs)
  else if pi.roots.length ≠ pi.commitmentCount then
    .error (.prog .InvalidPublicInputs)
  else
    match rootsLoopAux storage n0 n1 ti0 ti1 reduce pi.roots 0 with
    | .error e => .error e
    | .ok (rootsLen, tIdx) =>
      if ¬ (0 < rootsLen ∧ rootsLen ≤ 2) then .error (.prog .InvalidPublicInputs)
      else if (pi.roots.getD 0 none).isNone then
        .error (.prog .InvalidPublicInputs)
      else if ¬ (rootsLen ≤ 2) then .error (.prog .InvalidPublicInputs)
      else if 1 < rootsLen ∧ ti0 = ti1 then
        .error (.prog .InvalidInstructionData)
      else
        nullifierChecksAux n0 n1 reduce pi.nullifierHashes tIdx
          (List.range pi.nullifierHashes.length)

/-- Number of `Some` roots among the first `i` roots. -/
def countSomeBefore : List (Option Nat) → Nat → Nat
  | _, 0 => 0
  | [], _ + 1 => 0
  | r :: rest, i + 1 => (if r.isSome then 1 else 0) + countSomeBefore rest i

/-- Number of `Some` roots. -/
def countSome : List (Option Nat) → Nat
  | [] => 0
  | r :: rest => (if r.isSome then 1 else 0) + countSome rest

/-- Tree-slot assignment of input `i` (spec §4.3): each `Some` root opens the
next slot, a `None` root inherits slot 0. -/
def slotOf (roots : List (Option Nat)) (i : Nat) : Nat :=
  if (roots.getD i none).isSome then countSomeBefore roots i else 0

/-! ## finalize_verification_send_nullifiers
(`src/elusiv/src/processor/proof.rs` lines 448-483) -/

/-- The slice of the elusiv-crate `VerificationAccount` read and written by
`finalize_verification_send_nullifiers`. -/
structure FinalizeAccount where
  state : VerificationState
  request : ProofRequest

/-- Modelled from the spec (§3): `NullifierAccount.try_insert_nullifier_hash`
— the per-tree append-only set rejects an already-present nullifier hash with
`CouldNotInsertNullifier` and otherwise appends it.  The set is embedded as
the list of inserted (Montgomery-reduced) values. -/
def tryInsertNullifierHash (s : List Nat) (n : Nat) :
    Except PErr (List Nat) :=
  if n ∈ s then .error (.prog .CouldNotInsertNullifier) else .ok (s ++ [n])

/-- The insertion loop of `finalize_verification_send_nullifiers` lines
466-478: walk `roots` with running index `i` and `tree_index` counter `t`
(incremented on each `Some` root, `None` roots map to account 0), inserting
`nullifier_hashes[i].reduce()` into the selected nullifier account; a counter
value ≥ 2 or an index beyond `nullifier_hashes` panics.  Returns the error or
success together with the nullifier sets at that point. -/
def insertNullifiersLoop (reduce : Nat → Nat) (nh : List Nat) :
    List (Option Nat) → Nat → Nat → List Nat → List Nat →
    Except PErr Unit × List Nat × List Nat
  | [], _, _, s0, s1 => (.ok (), s0, s1)
  | root :: rest, i, t, s0, s1 =>
    if nh.length ≤ i then (.error .panicked, s0, s1)
    else
      let hash := reduce (nh.getD i 0)
      let idx := match root with | some _ => t | none => 0
      let t' := match root with | some _ => t + 1 | none => t
      if 2 ≤ idx then (.error .panicked, s0, s1)
      else if idx = 0 then
        match tryInsertNullifierHash s0 hash with
        | .ok s0' => insertNullifiersLoop reduce nh rest (i + 1) t' s0' s1
        | .error e => (.error e, s0, s1)
      else
        match tryInsertNullifierHash s1 hash with
        | .ok s1' => insertNullifiersLoop reduce nh rest (i + 1) t' s0 s1'
        | .error e => (.error e, s0, s1)

/-- Embeds `finalize_verification_send_nullifiers` from
`src/elusiv/src/processor/proof.rs` lines 448-483: requires state
`InsertNullifiers`, rejects `Migrate`, runs the insertion loop and advances
the state to `Finalized` only when every insert succeeded. -/
def finalizeVerificationSendNullifiers (reduce : Nat → Nat)
    (acct : FinalizeAccount) (n0 n1 : List Nat) :
    Except PErr Unit × FinalizeAccount × List Nat × List Nat :=
  if acct.state ≠ .InsertNullifiers then
    (.error (.prog .InvalidAccountState), acct, n0, n1)
  else
    match acct.request with
    | .Migrate _ => (.error (.prog .FeatureNotAvailable), acct, n0, n1)
    | .Send p | .Merge p =>
      match insertNullifiersLoop reduce p.joinSplit.nullifierHashes
          p.joinSplit.roots 0 0 n0 n1 with
      | (.ok _, s0, s1) => (.ok (), { acct with state := .Finalized }, s0, s1)
      | (.error e, s0, s1) => (.error e, acct, s0, s1)

/-- Reference insertion fold stated the way the claim reads: the `i`-th
nullifier hash is inserted (reduced) into the nullifier account selected by
its slot, left to right, stopping at the first failure. -/
def insertBySlots (reduce : Nat → Nat) :
    List (Nat × Nat) → List Nat → List Nat →
    Except PErr Unit × List Nat × List Nat
  | [], s0, s1 => (.ok (), s0, s1)
  | (slot, h) :: rest, s0, s1 =>
    if slot = 0 then
      match tryInsertNullifierHash s0 (reduce h) with
      | .ok s0' => insertBySlots reduce rest s0' s1
      | .error e => (.error e, s0, s1)
    else
      match tryInsertNullifierHash s1 (reduce h) with
      | .ok s1' => insertBySlots reduce rest s0 s1'
      | .error e => (.error e, s0, s1)

/-- The (slot, hash) pairs of a request, indexed left to right. -/
def slotHashPairs (roots : List (Option Nat)) (nh : List Nat) :
    List (Nat × Nat) :=
  (List.range nh.length).map fun i => (slotOf roots i, nh.getD i 0)

/-! ## init_verification (`src/elusiv/src/processor/proof.rs` lines 106-210) -/

/-- Account-creation effects of one `init_verification` call: whether the
nullifier-duplicate guard PDA was opened, whether the verification-account
PDA was opened, and whether its `setup` record was stored. -/
structure InitEffects where
  dupOpened : Bool
  verifOpened : Bool
  verifSetup : Bool
  deriving DecidableEq, Repr

/-- No account opened, nothing stored. -/
def noEffects : InitEffects := ⟨false, false, false⟩

/-- The account-opening tail of `init_verification` (lines 167-210): the
join-split checker, the nullifier-duplicate guard (created, or required to
exist when `skip_nullifier_pda`), the verification-account PDA and its
`setup`.  `openDupRes`, `openVerifRes` and `setupRes` are the results of the
external account primitives (`open_pda_account`,
`open_pda_account_with_offset`, `VerificationAccount::setup`), not under
src/. -/
def initVerificationAccounts (zeroC : Nat) (reduce : Nat → Nat)
    (storage : StorageModel) (n0 n1 : NullifierModel) (ti0 ti1 : Nat)
    (dupLamports : Nat) (openDupRes openVerifRes setupRes : Except Unit Unit)
    (skipNullifierPda : Bool) (js : JoinSplitPublicInputs) :
    Except PErr Unit × InitEffects :=
  match checkJoinSplitPublicInputs zeroC reduce storage n0 n1 ti0 ti1 js with
  | .error e => (.error e, noEffects)
  | .ok _ =>
    let afterDup : Except PErr Unit × Bool :=
      if skipNullifierPda then
        if dupLamports = 0 then (.error (.prog .InvalidInstructionData), false)
        else (.ok (), false)
      else
        match openDupRes with
        | .error _ => (.error .ext, false)
        | .ok _ => (.ok (), true)
    match afterDup with
    | (.error e, d) => (.error e, { noEffects with dupOpened := d })
    | (.ok _, d) =>
      match openVerifRes with
      | .error _ => (.error .ext, { noEffects with dupOpened := d })
      | .ok _ =>
        match setupRes with
        | .error _ => (.error .ext, ⟨d, true, false⟩)
        | .ok _ => (.ok (), ⟨d, true, true⟩)

/-- Embeds `init_verification` from `src/elusiv/src/processor/proof.rs` lines
106-210, for a non-test build (the `cfg!(test)` branch skipping the timestamp
check is not taken).  `vac` models
`SendPublicInputs::verify_additional_constraints` and `verifyTokenAccRes` the
`verify_token_account(recipient, token_id)` call (elusiv-types collaborators,
not under src/); `recipientKey` is the recipient account's key and
`clockTimestamp` the Clock sysvar value.  The
`prepare_public_inputs_instructions` schedule is a pure computation whose
value only flows into `setup` and is absorbed into `setupRes`. -/
def initVerification (vac : SendPublicInputs → Bool) (zeroC : Nat)
    (reduce : Nat → Nat) (storage : StorageModel) (n0 n1 : NullifierModel)
    (recipientKey : Nat) (clockTimestamp : Nat)
    (verifyTokenAccRes : Except Unit Bool) (dupLamports : Nat)
    (openDupRes openVerifRes setupRes : Except Unit Unit)
    (ti0 ti1 : Nat) (request : ProofRequest) (skipNullifierPda : Bool) :
    Except PErr Unit × InitEffects :=
  match request with
  | .Migrate _ => (.error (.prog .FeatureNotAvailable), noEffects)
  | .Send p =>
    if ¬ vac p then (.error (.prog .InvalidPublicInputs), noEffects)
    else if recipientKey ≠ p.recipientAddress then
      (.error (.prog .InvalidAccount), noEffects)
    else
      let tokenCheck : Except PErr Unit :=
        if p.recipientIsNonAssociatedTokenAccount then
          match verifyTokenAccRes with
          | .error _ => .error .ext
          | .ok true => .ok ()
          | .ok false => .error (.prog .InvalidAccount)
        else .ok ()
      match tokenCheck with
      | .error e => (.error e, noEffects)
      | .ok _ =>
        if ¬ isTimestampValid p.currentTime clockTimestamp then
          (.error (.prog .InvalidInstructionData), noEffects)
        else
          initVerificationAccounts zeroC reduce storage n0 n1 ti0 ti1
            dupLamports openDupRes openVerifRes setupRes skipNullifierPda
            p.joinSplit
  | .Merge p =>
    if p.joinSplit.amount ≠ 0 then (.error (.prog .InvalidAmount), noEffects)
    else if ¬ vac p then (.error (.prog .InvalidPublicInputs), noEffects)
    else
      initVerificationAccounts zeroC reduce storage n0 n1 ti0 ti1
        dupLamports openDupRes openVerifRes setupRes skipNullifierPda
        p.joinSplit

/-! ## init_verification_transfer_fee
(`src/elusiv/src/processor/proof.rs` lines 213-312) -/

/-- The slice of the elusiv-crate `VerificationAccount` read and written by
`init_verification_transfer_fee`: lifecycle state, stored fee payer and
request. -/
structure TransferFeeAccount where
  state : VerificationState
  feePayer : Nat
  request : ProofRequest

/-- Modelled from the spec: checked `Token`/`Lamports` addition of
elusiv-types (not under src/) — all amounts in this function carry the same
token id, so only the u64 overflow check remains. -/
def tokenAdd (a b : Nat) : Except Unit Nat :=
  if a + b < U64_MOD then .ok (a + b) else .error ()

/-- Modelled from the spec: checked `Token` subtraction of elusiv-types (not
under src/). -/
def tokenSub (a b : Nat) : Except Unit Nat :=
  if b ≤ a then .ok (a - b) else .error ()

/-- Embeds `init_verification_transfer_fee` from
`src/elusiv/src/processor/proof.rs` lines 213-312.  The governor, oracle,
token and transfer collaborators are not under src/; their call results are
passed in source order as parameters: `priceRes` (`TokenPrice::new`),
`subventionRes` / `pvfRes` / `chfTokenRes` (token conversions of
`proof_subvention`, `proof_verification_computation_fee`,
`commitment_hash_computation_fee`), `networkFeeRes`
(`Token::new_checked` of the network fee), `chfLamports`
(`commitment_hash_fee` in lamports), `verifyPoolRes` /
`verifyFeeCollectorRes`, `splRentRes` and `rentToTokenRes` (associated
token-account rent and its token conversion), `transferTokenRes` /
`transferFromPdaRes` and `verifyTokenAccountRes`.  The required fee equation
`fee = (commitment_hash_fee_token + proof_verification_fee + network_fee) −
subvention` is computed with the checked token arithmetic of line 253. -/
def initVerificationTransferFee (feePayerKey governorFeeVersion : Nat)
    (priceRes : Except Unit Unit)
    (subventionRes pvfRes chfTokenRes networkFeeRes : Except Unit Nat)
    (chfLamports : Nat)
    (verifyPoolRes verifyFeeCollectorRes : Except Unit Unit)
    (splRentRes : Except Unit Nat) (rentToTokenRes : Nat → Except Unit Nat)
    (transferTokenRes transferFromPdaRes : Except Unit Unit)
    (verifyTokenAccountRes : Except Unit Bool)
    (acct : TransferFeeAccount) :
    Except PErr Unit × TransferFeeAccount :=
  if acct.state ≠ .None then (.error (.prog .InvalidAccountState), acct)
  else if acct.feePayer ≠ feePayerKey then (.error (.prog .InvalidAccount), acct)
  else
    let js := acct.request.joinSplitInputs
    if js.feeVersion ≠ governorFeeVersion then
      (.error (.prog .InvalidFeeVersion), acct)
    else match priceRes with
    | .error _ => (.error .ext, acct)
    | .ok _ =>
      match subventionRes with
      | .error _ => (.error .ext, acct)
      | .ok subvention =>
        match pvfRes with
        | .error _ => (.error .ext, acct)
        | .ok proofVerificationFee =>
          match chfTokenRes with
          | .error _ => (.error .ext, acct)
          | .ok commitmentHashFeeToken =>
            match networkFeeRes with
            | .error _ => (.error .ext, acct)
            | .ok networkFee =>
              match tokenAdd commitmentHashFeeToken proofVerificationFee with
              | .error _ => (.error .ext, acct)
              | .ok t1 =>
                match tokenAdd t1 networkFee with
                | .error _ => (.error .ext, acct)
                | .ok t2 =>
                  match tokenSub t2 subvention with
                  | .error _ => (.error .ext, acct)
                  | .ok feeAmount =>
                    if feeAmount ≠ js.fee then
                      (.error (.prog .InvalidPublicInputs), acct)
                    else match verifyPoolRes with
                    | .error _ => (.error .ext, acct)
                    | .ok _ =>
                      match verifyFeeCollectorRes with
                      | .error _ => (.error .ext, acct)
                      | .ok _ =>
                        let rentStep : Except PErr Nat :=
                          match acct.request with
                          | .Send p =>
                            if ¬ p.recipientIsNonAssociatedTokenAccount then
                              match splRentRes with
                              | .error _ => .error .ext
                              | .ok rentLamports =>
                                match rentToTokenRes rentLamports with
                                | .error _ => .error .ext
                                | .ok rentToken =>
                                  if js.amount < rentToken then
                                    .error (.prog .InvalidPublicInputs)
                                  else .ok rentLamports
                            else .ok 0
                          | _ => .ok 0
                        match rentStep with
                        | .error e => (.error e, acct)
                        | .ok rentLamports =>
                          match tokenAdd chfLamports rentLamports with
                          | .error _ => (.error .ext, acct)
                          | .ok _ =>
                            match transferTokenRes with
                            | .error _ => (.error .ext, acct)
                            | .ok _ =>
                              match transferFromPdaRes with
                              | .error _ => (.error .ext, acct)
                              | .ok _ =>
                                match verifyTokenAccountRes with
                                | .error _ => (.error .ext, acct)
                                | .ok tokenAccOk =>
                                  if ¬ tokenAccOk then
                                    (.error (.prog .InvalidAccount), acct)
                                  else
                                    (.ok (),
                                     { acct with state := .FeeTransferred })

/-! # Theorems -/

/-! ## C7: minimum_commitment_mt_index arithmetic -/

/-- C7: for every trees count `t`, commitment pointer `n` and queue length `q`
(u32 values whose sums do not wrap), `minimum_commitment_mt_index (t, n, q)`
returns `((n + q) % M, t + (n + q) / M)`; in particular with `t = 0` it is
`((n + q) % M, (n + q) / M)`. -/
theorem minimum_commitment_mt_index_spec
    (M t n q : Nat) (hM : 0 < M) (hM32 : M < U32_MOD)
    (hnq : n + q < U32_MOD) (ht : t + (n + q) / M < U32_MOD) :
    minimumCommitmentMtIndex M t n q = ((n + q) % M, t + (n + q) / M) ∧
    minimumCommitmentMtIndex M 0 n q = ((n + q) % M, (n + q) / M) := by
  have h1 : (n + q) % U32_MOD = n + q := Nat.mod_eq_of_lt hnq
  have h2 : (n + q) / M < U32_MOD := by
    exact lt_of_le_of_lt (Nat.le_of_lt_succ (Nat.lt_succ_of_le
      (Nat.div_le_self _ _))) hnq
  constructor
  · simp only [minimumCommitmentMtIndex, h1]
    rw [Nat.mod_eq_of_lt ht]
  · simp only [minimumCommitmentMtIndex, h1, Nat.zero_add]
    rw [Nat.mod_eq_of_lt h2]

/-- Witness for C7: concrete evaluation at `M = 3`, `t = 1`, `n = 4`, `q = 5`. -/
theorem minimum_commitment_mt_index_spec_witness :
    minimumCommitmentMtIndex 3 1 4 5 = ((4 + 5) % 3, 1 + (4 + 5) / 3) ∧
    minimumCommitmentMtIndex 3 0 4 5 = ((4 + 5) % 3, (4 + 5) / 3) :=
  minimum_commitment_mt_index_spec 3 1 4 5 (by decide) (by decide)
    (by decide) (by decide)

/-! ## C1: prepare_public_inputs_partial never completes -/

/-- C1 (code bug): because `mul_round = round % 254` is always `< 254`, the
accumulation branch of `prepare_public_inputs_partial` is unreachable and the
function returns `None` at every round — for every verifying key, every input
scalar and every account state — so the full round range never produces the
prepared `g_ic`, contradicting the claim (and the repository's own test
`test_prepare_public_inputs`, which unwraps the final round's value). -/
theorem prepare_public_inputs_partial_never_some {Fq Fq2 Fq12 G1A G2A : Type}
    (ops : VerifierOps Fq Fq2 Fq12 G1A G2A) (vk : VKeyData Fq Fq12 G1A)
    (round : Nat) (acct : VerificationAccount Fq Fq2 Fq12 G1A G2A)
    (input : U256B) (inputIndex : Nat) :
    (preparePublicInputsRound ops vk round acct input inputIndex).1 = none := by
  unfold preparePublicInputsRound
  have h : round % 254 < 254 := Nat.mod_lt _ (by norm_num)
  simp only [if_pos h]
  split
  · rfl
  · rfl

/-! ## C2: verdict stability -/

/-- C2: once `is_verified` is `Some(b)` it is never overwritten:
`compute_verification` on an account with a verdict (precomputes set up,
lifecycle state permitted) returns `ComputationIsAlreadyFinished` and leaves
the account — in particular `is_verified` — unchanged; and `verify_partial`
invoked with a round at or beyond the total round count
(`FINAL_EXPONENTIATION_ROUNDS`, the last of the three monotone cumulative
thresholds) returns `ComputationIsAlreadyFinished` and leaves the
verification account unmutated. -/
theorem is_verified_stable {S Fq Fq2 Fq12 G1A G2A : Type}
    (isSetup : Bool) (step : S → Except ElusivError (Option Bool) × S)
    (acct : ComputeVerificationAccount S) (b : Bool)
    (ops : VerifierOps Fq Fq2 Fq12 G1A G2A) (vk : VKeyData Fq Fq12 G1A)
    (millerStep : Nat → Ram Fq Fq2 Fq12 → G1A → G2A → G1A → G1A →
      G2HomProjective Fq2 →
      Except ElusivError (Option Fq12) × Ram Fq Fq2 Fq12 × G2HomProjective Fq2)
    (finalExpStep : Nat → Ram Fq Fq2 Fq12 → Fq12 →
      Except ElusivError (Option Fq12) × Ram Fq Fq2 Fq12)
    (round : Nat) (vacct : VerificationAccount Fq Fq2 Fq12 G1A G2A)
    (hSetup : isSetup = true)
    (hState : acct.state = .None ∨ acct.state = .ProofSetup)
    (hVerified : acct.isVerified = some b)
    (h1 : vk.prepareRounds ≤ vk.millerRounds)
    (h2 : vk.millerRounds ≤ vk.finalExpRounds)
    (h3 : vk.finalExpRounds ≤ round) :
    computeVerification isSetup step acct =
      (.error .ComputationIsAlreadyFinished, acct) ∧
    verifyPartialStep ops vk millerStep finalExpStep round vacct =
      (.error .ComputationIsAlreadyFinished, vacct) := by
  constructor
  · unfold computeVerification
    rw [hSetup]
    simp only [Bool.not_true, reduceIte, hVerified]
    simp [hState]
  · unfold verifyPartialStep
    have hp : ¬ round < vk.prepareRounds := by omega
    have hm : ¬ round < vk.millerRounds := by omega
    have hf : ¬ round < vk.finalExpRounds := by omega
    simp [hp, hm, hf]

/-- Witness for C2: a concrete account with verdict `Some true` in state
`ProofSetup` (scratch `S = Nat`, types instantiated at `Unit`), at round 7 of
a key with thresholds 1 ≤ 2 ≤ 3. -/
theorem is_verified_stable_witness :
    computeVerification true (fun (s : Nat) => (.ok none, s))
        ⟨.ProofSetup, some true, 0⟩ =
      (.error .ComputationIsAlreadyFinished, ⟨.ProofSetup, some true, 0⟩) ∧
    verifyPartialStep unitVerifierOps unitVKey3 unitMillerStep unitFinalExpStep
        7 unitVerificationAccount =
      (.error .ComputationIsAlreadyFinished, unitVerificationAccount) :=
  is_verified_stable true (fun (s : Nat) => (.ok none, s))
    ⟨.ProofSetup, some true, 0⟩ true unitVerifierOps unitVKey3 unitMillerStep
    unitFinalExpStep 7 unitVerificationAccount rfl (Or.inr rfl) rfl
    (by decide) (by decide) (by decide)

/-! ## C10: verify_partial is independent of the stored inputs and proof -/

/-- Helper: one round of the public-input preparation reads and writes only
the scratch RAM; replacing the stored public inputs and proof fields commutes
with it. -/
theorem preparePublicInputsRound_fields {Fq Fq2 Fq12 G1A G2A : Type}
    (ops : VerifierOps Fq Fq2 Fq12 G1A G2A) (vk : VKeyData Fq Fq12 G1A)
    (round : Nat) (acct : VerificationAccount Fq Fq2 Fq12 G1A G2A)
    (input : U256B) (inputIndex : Nat)
    (p : Nat → U256B) (a' : G1A) (b' : G2A) (c' : G1A) :
    preparePublicInputsRound ops vk round
        { acct with publicInputs := p, a := a', b := b', c := c' }
        input inputIndex =
      ((preparePublicInputsRound ops vk round acct input inputIndex).1,
       { (preparePublicInputsRound ops vk round acct input inputIndex).2 with
          publicInputs := p, a := a', b := b', c := c' }) := by
  unfold preparePublicInputsRound
  dsimp only
  split
  · split
    · rfl
    · rfl
  · split
    · rfl
    · rfl

/-- C10: in `verify_partial` the scalar passed to the input preparation is the
constant `[0; 32]` and the Miller loop and final exponentiation receive
freshly constructed zero values instead of the stored proof and prepared
inputs; consequently, two verification accounts differing only in their
stored public inputs and proof `(a, b, c)` produce, at every round, the same
result and the same scratch-RAM and prepared-inputs writes. -/
theorem verify_partial_independent_of_stored_inputs {Fq Fq2 Fq12 G1A G2A : Type}
    (ops : VerifierOps Fq Fq2 Fq12 G1A G2A) (vk : VKeyData Fq Fq12 G1A)
    (millerStep : Nat → Ram Fq Fq2 Fq12 → G1A → G2A → G1A → G1A →
      G2HomProjective Fq2 →
      Except ElusivError (Option Fq12) × Ram Fq Fq2 Fq12 × G2HomProjective Fq2)
    (finalExpStep : Nat → Ram Fq Fq2 Fq12 → Fq12 →
      Except ElusivError (Option Fq12) × Ram Fq Fq2 Fq12)
    (round : Nat) (acct : VerificationAccount Fq Fq2 Fq12 G1A G2A)
    (p : Nat → U256B) (a' : G1A) (b' : G2A) (c' : G1A) :
    verifyPartialStep ops vk millerStep finalExpStep round
        { acct with publicInputs := p, a := a', b := b', c := c' } =
      ((verifyPartialStep ops vk millerStep finalExpStep round acct).1,
       { (verifyPartialStep ops vk millerStep finalExpStep round acct).2 with
          publicInputs := p, a := a', b := b', c := c' }) := by
  unfold verifyPartialStep
  split
  · rw [preparePublicInputsRound_fields]
    rcases hpre : preparePublicInputsRound ops vk round acct
      (List.replicate 32 0) (round / 254) with ⟨r, acct'⟩
    cases r
    · dsimp only
      split
      · rfl
      · rfl
    · rfl
  · split
    · rcases hstep : millerStep (round - vk.prepareRounds) acct.ram
        ops.g1aZero ops.g2aZero ops.g1aZero ops.g1aZero
        ⟨ops.fq2Zero, ops.fq2Zero, ops.fq2Zero⟩ with ⟨res, ram', rr⟩
      rcases res with e | r
      · rfl
      · cases r
        · rfl
        · rfl
    · split
      · rcases hstep : finalExpStep (round - vk.millerRounds) acct.ram
          ops.fq12Zero with ⟨res, ram'⟩
        rcases res with e | r
        · rfl
        · cases r
          · rfl
          · rfl
      · rfl

/-! ## C3: compute_verification error handling -/

/-- C3: on a verification account in a permitted state with no verdict yet,
`compute_verification` converts any verifier-step error other than
`InvalidAccountState` into the stored verdict `Some(false)` and returns
success; propagates `InvalidAccountState` leaving the verdict `None`; and
stores the final boolean when the step returns one. -/
theorem compute_verification_error_handling {S : Type}
    (step : S → Except ElusivError (Option Bool) × S)
    (acct : ComputeVerificationAccount S)
    (hState : acct.state = .None ∨ acct.state = .ProofSetup)
    (hVerified : acct.isVerified = none) :
    (∀ e s', step acct.scratch = (.error e, s') → e ≠ .InvalidAccountState →
      computeVerification true step acct =
        (.ok (), { acct with scratch := s', isVerified := some false })) ∧
    (∀ s', step acct.scratch = (.error .InvalidAccountState, s') →
      computeVerification true step acct =
        (.error .InvalidAccountState, { acct with scratch := s' })) ∧
    (∀ b s', step acct.scratch = (.ok (some b), s') →
      computeVerification true step acct =
        (.ok (), { acct with scratch := s', isVerified := some b })) := by
  refine ⟨?_, ?_, ?_⟩
  · intro e s' hstep hne
    unfold computeVerification
    simp [hState, hVerified, hstep, hne]
  · intro s' hstep
    unfold computeVerification
    simp [hState, hVerified, hstep]
  · intro b s' hstep
    unfold computeVerification
    simp [hState, hVerified, hstep]

/-- Witness for C3: a concrete account in state `ProofSetup` with no verdict
(scratch `S = Nat`); an erroring step (`CouldNotProcessProof`) makes
`compute_verification` store `Some(false)` and succeed. -/
theorem compute_verification_error_handling_witness :
    computeVerification true
        (fun (s : Nat) => (.error .CouldNotProcessProof, s))
        ⟨.ProofSetup, none, 0⟩ =
      (.ok (), ⟨.ProofSetup, some false, 0⟩) :=
  (compute_verification_error_handling
      (fun (s : Nat) => (.error .CouldNotProcessProof, s))
      ⟨.ProofSetup, none, 0⟩ (Or.inr rfl) rfl).1
    .CouldNotProcessProof 0 rfl (by decide)

/-! ## C9: Migrate requests are rejected before any state is created -/

/-- C9: for every Migrate request, `init_verification` returns
`FeatureNotAvailable` with no account opened and nothing stored — the
rejection happens before the duplicate-guard and verification accounts are
touched, for every collaborator outcome. -/
theorem init_verification_migrate_rejected
    (vac : SendPublicInputs → Bool) (zeroC : Nat) (reduce : Nat → Nat)
    (storage : StorageModel) (n0 n1 : NullifierModel)
    (recipientKey clockTimestamp : Nat) (verifyTokenAccRes : Except Unit Bool)
    (dupLamports : Nat) (openDupRes openVerifRes setupRes : Except Unit Unit)
    (ti0 ti1 : Nat) (m : MigratePublicInputs) (skipNullifierPda : Bool) :
    initVerification vac zeroC reduce storage n0 n1 recipientKey
        clockTimestamp verifyTokenAccRes dupLamports openDupRes openVerifRes
        setupRes ti0 ti1 (.Migrate m) skipNullifierPda =
      (.error (.prog .FeatureNotAvailable), noEffects) := rfl

/-! ## C8: the timestamp-freshness check -/

/-- Counterexample for C8: at `current_time = 32`, `clock = 0` the claimed
acceptance condition (pruned `current_time` ≥ pruned clock) holds, yet
`is_timestamp_valid` rejects — the source compares with `<=`, not `>=`. -/
theorem is_timestamp_valid_ge_counterexample :
    isTimestampValid 32 0 = false ∧
    0 >>> TIMESTAMP_BITS_PRUNING ≤ 32 >>> TIMESTAMP_BITS_PRUNING := by
  decide

/-- C8 (amended): outside test mode, `init_verification`'s
timestamp-freshness check accepts exactly when the pruned `current_time` is
less than or equal to the pruned clock timestamp (`TIMESTAMP_BITS_PRUNING`
= 5 low bits discarded); a Send request failing this check — its earlier
guards passing — is rejected with `InvalidInstructionData` before any account
is created. -/
theorem init_verification_timestamp_check
    (vac : SendPublicInputs → Bool) (zeroC : Nat) (reduce : Nat → Nat)
    (storage : StorageModel) (n0 n1 : NullifierModel)
    (recipientKey clockTimestamp : Nat) (verifyTokenAccRes : Except Unit Bool)
    (dupLamports : Nat) (openDupRes openVerifRes setupRes : Except Unit Unit)
    (ti0 ti1 : Nat) (p : SendPublicInputs) (skipNullifierPda : Bool)
    (hvac : vac p = true)
    (hrec : recipientKey = p.recipientAddress)
    (htok : p.recipientIsNonAssociatedTokenAccount = false ∨
      verifyTokenAccRes = .ok true)
    (hts : ¬ p.currentTime >>> TIMESTAMP_BITS_PRUNING ≤
      clockTimestamp >>> TIMESTAMP_BITS_PRUNING) :
    initVerification vac zeroC reduce storage n0 n1 recipientKey
        clockTimestamp verifyTokenAccRes dupLamports openDupRes openVerifRes
        setupRes ti0 ti1 (.Send p) skipNullifierPda =
      (.error (.prog .InvalidInstructionData), noEffects) ∧
    (∀ a t, isTimestampValid a t = true ↔
      a >>> TIMESTAMP_BITS_PRUNING ≤ t >>> TIMESTAMP_BITS_PRUNING) := by
  constructor
  · unfold initVerification
    have hval : isTimestampValid p.currentTime clockTimestamp = false := by
      simp [isTimestampValid, hts]
    rcases htok with hna | hres
    · simp [hvac, hrec, hna, hval]
    · by_cases hna : p.recipientIsNonAssociatedTokenAccount
      · simp [hvac, hrec, hna, hres, hval]
      · simp [hvac, hrec, hna, hval]
  · intro a t
    simp [isTimestampValid]

/-- Witness for C8: a concrete Send request with `current_time = 32` against
clock 0 (pruned 1 > 0, stale by the code's `<=` rule) is rejected with
`InvalidInstructionData` and no account is created. -/
theorem init_verification_timestamp_check_witness :
    initVerification (fun _ => true) 0 (fun n => n)
        ⟨0, fun _ => true⟩ ⟨0, fun _ => true⟩ ⟨0, fun _ => true⟩ 7 0
        (.ok true) 1 (.ok ()) (.ok ()) (.ok ()) 0 1
        (.Send ⟨⟨1, [some 1], [1], 1, 0, 0, 0, 0⟩, 7, false, 32, 1, 2⟩)
        false =
      (.error (.prog .InvalidInstructionData), noEffects) :=
  (init_verification_timestamp_check (fun _ => true) 0 (fun n => n)
      ⟨0, fun _ => true⟩ ⟨0, fun _ => true⟩ ⟨0, fun _ => true⟩ 7 0
      (.ok true) 1 (.ok ()) (.ok ()) (.ok ()) 0 1
      ⟨⟨1, [some 1], [1], 1, 0, 0, 0, 0⟩, 7, false, 32, 1, 2⟩ false
      rfl rfl (Or.inl rfl) (by decide)).1

/-! ## C4: the fee equation check of init_verification_transfer_fee -/

set_option maxHeartbeats 1600000 in
/-- Helper: every branch of `init_verification_transfer_fee` either returns
an error leaving the account untouched, or succeeds with the state advanced
to `FeeTransferred` and nothing else changed. -/
theorem initVerificationTransferFee_cases
    (feePayerKey governorFeeVersion : Nat) (priceRes : Except Unit Unit)
    (subventionRes pvfRes chfTokenRes networkFeeRes : Except Unit Nat)
    (chfLamports : Nat) (verifyPoolRes verifyFeeCollectorRes : Except Unit Unit)
    (splRentRes : Except Unit Nat) (rentToTokenRes : Nat → Except Unit Nat)
    (transferTokenRes transferFromPdaRes : Except Unit Unit)
    (verifyTokenAccountRes : Except Unit Bool) (acct : TransferFeeAccount) :
    initVerificationTransferFee feePayerKey governorFeeVersion priceRes
        subventionRes pvfRes chfTokenRes networkFeeRes chfLamports
        verifyPoolRes verifyFeeCollectorRes splRentRes rentToTokenRes
        transferTokenRes transferFromPdaRes verifyTokenAccountRes acct =
      (.ok (), { acct with state := .FeeTransferred }) ∨
    ∃ e, initVerificationTransferFee feePayerKey governorFeeVersion priceRes
        subventionRes pvfRes chfTokenRes networkFeeRes chfLamports
        verifyPoolRes verifyFeeCollectorRes splRentRes rentToTokenRes
        transferTokenRes transferFromPdaRes verifyTokenAccountRes acct =
      (.error e, acct) := by
  unfold initVerificationTransferFee
  dsimp only
  repeat' first
  | split
  | (dsimp only)
  | (right; exact ⟨_, rfl⟩)
  | (left; rfl)

/-- C4: with a verification account in state `None`, the matching fee payer
and fee version, and the oracle/fee collaborators succeeding, the recomputed
fee is `(commitment_hash_fee_token + proof_verification_fee + network_fee) −
subvention`; the request is rejected with `InvalidPublicInputs` whenever this
amount differs from `join_split.fee`, and the call succeeds — transitioning
to `FeeTransferred` — only when they are equal. -/
theorem init_verification_transfer_fee_fee_check
    (feePayerKey governorFeeVersion : Nat) (priceRes : Except Unit Unit)
    (subventionRes pvfRes chfTokenRes networkFeeRes : Except Unit Nat)
    (chfLamports : Nat) (verifyPoolRes verifyFeeCollectorRes : Except Unit Unit)
    (splRentRes : Except Unit Nat) (rentToTokenRes : Nat → Except Unit Nat)
    (transferTokenRes transferFromPdaRes : Except Unit Unit)
    (verifyTokenAccountRes : Except Unit Bool) (acct : TransferFeeAccount)
    (sv pv ch nf : Nat)
    (hstate : acct.state = .None)
    (hpayer : acct.feePayer = feePayerKey)
    (hver : acct.request.joinSplitInputs.feeVersion = governorFeeVersion)
    (hprice : priceRes = .ok ())
    (hsv : subventionRes = .ok sv) (hpv : pvfRes = .ok pv)
    (hch : chfTokenRes = .ok ch) (hnf : networkFeeRes = .ok nf)
    (hsum : ch + pv + nf < U64_MOD) (hsub : sv ≤ ch + pv + nf) :
    (ch + pv + nf - sv ≠ acct.request.joinSplitInputs.fee →
      initVerificationTransferFee feePayerKey governorFeeVersion priceRes
          subventionRes pvfRes chfTokenRes networkFeeRes chfLamports
          verifyPoolRes verifyFeeCollectorRes splRentRes rentToTokenRes
          transferTokenRes transferFromPdaRes verifyTokenAccountRes acct =
        (.error (.prog .InvalidPublicInputs), acct)) ∧
    (∀ acct', initVerificationTransferFee feePayerKey governorFeeVersion
          priceRes subventionRes pvfRes chfTokenRes networkFeeRes chfLamports
          verifyPoolRes verifyFeeCollectorRes splRentRes rentToTokenRes
          transferTokenRes transferFromPdaRes verifyTokenAccountRes acct =
        (.ok (), acct') →
      ch + pv + nf - sv = acct.request.joinSplitInputs.fee ∧
      acct'.state = .FeeTransferred) := by
  have h1 : tokenAdd ch pv = .ok (ch + pv) := by
    unfold tokenAdd
    rw [if_pos (by omega)]
  have h2 : tokenAdd (ch + pv) nf = .ok (ch + pv + nf) := by
    unfold tokenAdd
    rw [if_pos (by omega)]
  have h3 : tokenSub (ch + pv + nf) sv = .ok (ch + pv + nf - sv) := by
    unfold tokenSub
    rw [if_pos hsub]
  constructor
  · intro hne
    unfold initVerificationTransferFee
    simp [hstate, hpayer, hver, hprice, hsv, hpv, hch, hnf, h1, h2, h3, hne]
  · intro acct' hok
    have hfee : ch + pv + nf - sv = acct.request.joinSplitInputs.fee := by
      by_contra hne
      have herr : initVerificationTransferFee feePayerKey governorFeeVersion
          priceRes subventionRes pvfRes chfTokenRes networkFeeRes chfLamports
          verifyPoolRes verifyFeeCollectorRes splRentRes rentToTokenRes
          transferTokenRes transferFromPdaRes verifyTokenAccountRes acct =
          (.error (.prog .InvalidPublicInputs), acct) := by
        unfold initVerificationTransferFee
        simp [hstate, hpayer, hver, hprice, hsv, hpv, hch, hnf, h1, h2, h3, hne]
      rw [herr] at hok
      simp at hok
    refine ⟨hfee, ?_⟩
    rcases initVerificationTransferFee_cases feePayerKey governorFeeVersion
        priceRes subventionRes pvfRes chfTokenRes networkFeeRes chfLamports
        verifyPoolRes verifyFeeCollectorRes splRentRes rentToTokenRes
        transferTokenRes transferFromPdaRes verifyTokenAccountRes acct with
      hcase | ⟨e, hcase⟩
    · rw [hcase] at hok
      have : acct' = { acct with state := .FeeTransferred } :=
        (Prod.mk.injEq _ _ _ _ ▸ hok).2.symm
      rw [this]
    · rw [hcase] at hok
      simp at hok

/-- Witness for C4: a concrete Merge request with `fee = 8` and collaborator
amounts `subvention = 1`, `proof_verification_fee = 2`,
`commitment_hash_fee_token = 3`, `network_fee = 4` (recomputed fee
`3 + 2 + 4 − 1 = 8`); the call can only succeed into `FeeTransferred`, and
with `fee` mismatched the fee guard fires (shown by applying the theorem at
`fee = 9` via its first conjunct on a second concrete account). -/
theorem init_verification_transfer_fee_fee_check_witness :
    initVerificationTransferFee 5 0 (.ok ()) (.ok 1) (.ok 2) (.ok 3) (.ok 4)
        10 (.ok ()) (.ok ()) (.ok 0) (fun _ => .ok 0) (.ok ()) (.ok ())
        (.ok true)
        ⟨.None, 5, .Merge ⟨⟨1, [some 1], [1], 1, 0, 0, 9, 0⟩, 7, true, 0, 1, 2⟩⟩ =
      (.error (.prog .InvalidPublicInputs),
       ⟨.None, 5, .Merge ⟨⟨1, [some 1], [1], 1, 0, 0, 9, 0⟩, 7, true, 0, 1, 2⟩⟩) :=
  (init_verification_transfer_fee_fee_check 5 0 (.ok ()) (.ok 1) (.ok 2)
      (.ok 3) (.ok 4) 10 (.ok ()) (.ok ()) (.ok 0) (fun _ => .ok 0) (.ok ())
      (.ok ()) (.ok true)
      ⟨.None, 5, .Merge ⟨⟨1, [some 1], [1], 1, 0, 0, 9, 0⟩, 7, true, 0, 1, 2⟩⟩
      1 2 3 4 rfl rfl rfl rfl rfl rfl rfl rfl (by decide) (by decide)).1
    (by decide)

/-! ## C6: finalize_verification_send_nullifiers -/

/-- Helper: unfolding `countSomeBefore` one position at a time. -/
theorem countSomeBefore_succ_getD :
    ∀ (R : List (Option Nat)) (i : Nat), i < R.length →
      countSomeBefore R (i + 1) =
        countSomeBefore R i + (if (R.getD i none).isSome then 1 else 0)
  | [], i, h => by simp at h
  | r :: rest, 0, _ => by simp [countSomeBefore]
  | r :: rest, i + 1, h => by
    have ih := countSomeBefore_succ_getD rest i (by
      simpa using Nat.lt_of_succ_lt_succ h)
    simp only [countSomeBefore, List.getD_cons_succ, ih]
    omega

/-- Helper: the `Some`-count splits at any position. -/
theorem countSomeBefore_add_drop :
    ∀ (R : List (Option Nat)) (i : Nat),
      countSomeBefore R i + countSome (R.drop i) = countSome R
  | _, 0 => by simp [countSomeBefore]
  | [], i + 1 => by simp [countSomeBefore, countSome]
  | r :: rest, i + 1 => by
    have ih := countSomeBefore_add_drop rest i
    simp only [countSomeBefore, countSome, List.drop_succ_cons]
    omega

/-- Helper: the insertion loop of `finalize_verification_send_nullifiers`
computes the claim's slot-indexed insertion fold, for every suffix position
(the `tree_index` counter equals the number of `Some` roots already
passed). -/
theorem insertNullifiersLoop_eq_insertBySlots (reduce : Nat → Nat)
    (R : List (Option Nat)) (nh : List Nat)
    (hlen : nh.length = R.length) (hcap : countSome R ≤ 2) :
    ∀ (suf : List (Option Nat)) (i : Nat) (s0 s1 : List Nat),
      R.drop i = suf →
      insertNullifiersLoop reduce nh suf i (countSomeBefore R i) s0 s1 =
        insertBySlots reduce
          ((List.range' i suf.length).map fun j => (slotOf R j, nh.getD j 0))
          s0 s1
  | [], i, s0, s1, _ => by
    simp [insertNullifiersLoop, insertBySlots, List.range']
  | root :: rest, i, s0, s1, hdrop => by
    have hiR : i < R.length := by
      by_contra hge
      push_neg at hge
      rw [List.drop_eq_nil_of_le hge] at hdrop
      exact List.noConfusion hdrop
    have hdecomp := List.drop_eq_getElem_cons (n := i) (l := R) hiR
    rw [hdrop] at hdecomp
    injection hdecomp with hroot hrest
    have hRi : R.getD i none = root := by
      simp [List.getD_eq_getElem?_getD, List.getElem?_eq_getElem hiR, hroot]
    have hnh : ¬ nh.length ≤ i := by omega
    have hcsb : countSomeBefore R (i + 1) =
        countSomeBefore R i + (if root.isSome then 1 else 0) := by
      rw [countSomeBefore_succ_getD R i hiR, hRi]
    have hsplit := countSomeBefore_add_drop R i
    rw [hdrop] at hsplit
    have hrange : List.range' i (root :: rest).length =
        i :: List.range' (i + 1) rest.length := by
      simp [List.range'_succ]
    rcases root with _ | r
    · -- None root: account 0, counter unchanged
      have hslot : slotOf R i = 0 := by
        unfold slotOf
        rw [hRi]
        simp
      have ht' : countSomeBefore R (i + 1) = countSomeBefore R i := by
        simpa using hcsb
      rw [hrange]
      simp only [List.map_cons, hslot]
      show insertNullifiersLoop reduce nh (none :: rest) i
          (countSomeBefore R i) s0 s1 = _
      unfold insertNullifiersLoop
      rw [if_neg hnh]
      dsimp only
      rw [if_neg (by omega : ¬ 2 ≤ 0), if_pos rfl]
      unfold insertBySlots
      rw [if_pos rfl]
      rcases htry : tryInsertNullifierHash s0 (reduce (nh.getD i 0)) with e | s0'
      · rfl
      · rw [← ht']
        exact insertNullifiersLoop_eq_insertBySlots reduce R nh hlen hcap
          rest (i + 1) s0' s1 hrest.symm
    · -- Some root: slot = counter, counter increments
      have hsome : countSome (some r :: rest) = 1 + countSome rest := by
        simp [countSome]
      have htlt : countSomeBefore R i < 2 := by omega
      have hslot : slotOf R i = countSomeBefore R i := by
        unfold slotOf
        rw [hRi]
        simp
      have ht' : countSomeBefore R (i + 1) = countSomeBefore R i + 1 := by
        simpa using hcsb
      rw [hrange]
      simp only [List.map_cons, hslot]
      show insertNullifiersLoop reduce nh (some r :: rest) i
          (countSomeBefore R i) s0 s1 = _
      unfold insertNullifiersLoop
      rw [if_neg hnh]
      dsimp only
      rw [if_neg (by omega : ¬ 2 ≤ countSomeBefore R i)]
      unfold insertBySlots
      by_cases hz : countSomeBefore R i = 0
      · rw [if_pos hz, if_pos hz]
        rcases htry : tryInsertNullifierHash s0 (reduce (nh.getD i 0)) with e | s0'
        · rfl
        · rw [← ht']
          exact insertNullifiersLoop_eq_insertBySlots reduce R nh hlen hcap
            rest (i + 1) s0' s1 hrest.symm
      · rw [if_neg hz, if_neg hz]
        rcases htry : tryInsertNullifierHash s1 (reduce (nh.getD i 0)) with e | s1'
        · rfl
        · rw [← ht']
          exact insertNullifiersLoop_eq_insertBySlots reduce R nh hlen hcap
            rest (i + 1) s0 s1' hrest.symm

/-- C6: on a Send or Merge verification account in state `InsertNullifiers`
(with well-formed inputs: as many nullifier hashes as roots, at most two
`Some` roots), `finalize_verification_send_nullifiers` performs exactly the
claim's left-to-right slot-indexed insertion
(`try_insert_nullifier_hash(nullifier_hashes[i].reduce())` on
`nullifier_accounts[slot i]`, the tree index incrementing on each `Some`
root, `None` roots mapping to slot 0): if every insert succeeds the state
becomes `Finalized` with the updated sets; if an insert fails, that error is
returned and the state stays `InsertNullifiers`. -/
theorem finalize_verification_send_nullifiers_spec (reduce : Nat → Nat)
    (acct : FinalizeAccount) (n0 n1 : List Nat) (p : SendPublicInputs)
    (hreq : acct.request = .Send p ∨ acct.request = .Merge p)
    (hstate : acct.state = .InsertNullifiers)
    (hlen : p.joinSplit.nullifierHashes.length = p.joinSplit.roots.length)
    (hcap : countSome p.joinSplit.roots ≤ 2) :
    (∀ u s0 s1,
      insertBySlots reduce
          (slotHashPairs p.joinSplit.roots p.joinSplit.nullifierHashes)
          n0 n1 = (.ok u, s0, s1) →
      finalizeVerificationSendNullifiers reduce acct n0 n1 =
        (.ok (), { acct with state := .Finalized }, s0, s1)) ∧
    (∀ e s0 s1,
      insertBySlots reduce
          (slotHashPairs p.joinSplit.roots p.joinSplit.nullifierHashes)
          n0 n1 = (.error e, s0, s1) →
      finalizeVerificationSendNullifiers reduce acct n0 n1 =
        (.error e, acct, s0, s1) ∧ acct.state = .InsertNullifiers) := by
  have hloop : insertNullifiersLoop reduce p.joinSplit.nullifierHashes
      p.joinSplit.roots 0 0 n0 n1 =
      insertBySlots reduce
        (slotHashPairs p.joinSplit.roots p.joinSplit.nullifierHashes) n0 n1 := by
    have h0 := insertNullifiersLoop_eq_insertBySlots reduce p.joinSplit.roots
      p.joinSplit.nullifierHashes hlen hcap p.joinSplit.roots 0 n0 n1
      (List.drop_zero _)
    rw [show countSomeBefore p.joinSplit.roots 0 = 0 by simp [countSomeBefore]] at h0
    rw [h0]
    unfold slotHashPairs
    rw [hlen, List.range_eq_range']
  have hfin : finalizeVerificationSendNullifiers reduce acct n0 n1 =
      match insertBySlots reduce
          (slotHashPairs p.joinSplit.roots p.joinSplit.nullifierHashes)
          n0 n1 with
      | (.ok _, s0, s1) => (.ok (), { acct with state := .Finalized }, s0, s1)
      | (.error e, s0, s1) => (.error e, acct, s0, s1) := by
    unfold finalizeVerificationSendNullifiers
    rw [if_neg (by rw [hstate]; simp)]
    rcases hreq with hr | hr
    · rw [hr]
      dsimp only
      rw [hloop]
    · rw [hr]
      dsimp only
      rw [hloop]
  constructor
  · intro u s0 s1 hins
    rw [hfin, hins]
  · intro e s0 s1 hins
    rw [hfin, hins]
    exact ⟨rfl, hstate⟩

/-- Witness for C6: a concrete Send account in state `InsertNullifiers` with
one `Some` root and one fresh nullifier hash — the insertion succeeds into
account 0 and the state becomes `Finalized`. -/
theorem finalize_verification_send_nullifiers_spec_witness :
    finalizeVerificationSendNullifiers (fun n => n)
        ⟨.InsertNullifiers, .Send ⟨⟨1, [some 5], [3], 1, 0, 0, 0, 0⟩, 7, false, 0, 1, 2⟩⟩
        [] [] =
      (.ok (), ⟨.Finalized, .Send ⟨⟨1, [some 5], [3], 1, 0, 0, 0, 0⟩, 7, false, 0, 1, 2⟩⟩,
       [3], []) :=
  (finalize_verification_send_nullifiers_spec (fun n => n)
      ⟨.InsertNullifiers, .Send ⟨⟨1, [some 5], [3], 1, 0, 0, 0, 0⟩, 7, false, 0, 1, 2⟩⟩
      [] [] ⟨⟨1, [some 5], [3], 1, 0, 0, 0, 0⟩, 7, false, 0, 1, 2⟩
      (Or.inl rfl) rfl rfl (by decide)).1 () [3] [] rfl

/-! ## C5: nullifier uniqueness in check_join_split_public_inputs -/

/-- Helper: indexing the `tree_index` vector built as a map over a range. -/
theorem getD_range_map (f : Nat → Nat) (n i d : Nat) (h : i < n) :
    ((List.range n).map f).getD i d = f i := by
  simp [List.getD_eq_getElem?_getD, List.getElem?_map, List.getElem?_range h]

/-- Helper: a `Some` first root makes the `Some` count positive. -/
theorem countSome_pos_of_head (roots : List (Option Nat))
    (h : (roots.getD 0 none).isSome) : 0 < countSome roots := by
  cases roots with
  | nil => simp at h
  | cons r rest =>
    simp only [List.getD_cons_zero] at h
    unfold countSome
    rw [if_pos h]
    omega

/-- Helper: the roots loop succeeds when every `Some` root validates in its
slot, returning the `Some` count and the slot of every position. -/
theorem rootsLoopAux_ok (storage : StorageModel) (n0 n1 : NullifierModel)
    (ti0 ti1 : Nat) (reduce : Nat → Nat) :
    ∀ (roots : List (Option Nat)) (k : Nat),
      (∀ i r, roots.getD i none = some r →
        k + countSomeBefore roots i < 2 ∧
        rootOk storage n0 n1 ti0 ti1 reduce (k + countSomeBefore roots i) r =
          true) →
      rootsLoopAux storage n0 n1 ti0 ti1 reduce roots k =
        .ok (k + countSome roots,
          (List.range roots.length).map fun i =>
            if (roots.getD i none).isSome then k + countSomeBefore roots i
            else 0)
  | [], k, _ => by simp [rootsLoopAux, countSome]
  | some r :: rest, k, h => by
    have h0 := h 0 r (by simp)
    rw [show countSomeBefore (some r :: rest) 0 = 0 by
      simp [countSomeBefore]] at h0
    rw [Nat.add_zero] at h0
    obtain ⟨hk2, hok⟩ := h0
    have ih := rootsLoopAux_ok storage n0 n1 ti0 ti1 reduce rest (k + 1)
      (fun i r' hr' => by
        have hh := h (i + 1) r' (by simpa using hr')
        rw [show countSomeBefore (some r :: rest) (i + 1) =
          1 + countSomeBefore rest i by simp [countSomeBefore]] at hh
        rw [show k + (1 + countSomeBefore rest i) =
          k + 1 + countSomeBefore rest i by omega] at hh
        exact hh)
    unfold rootsLoopAux
    rw [if_neg (by omega), if_pos hok, ih]
    dsimp only
    simp only [Except.ok.injEq, Prod.mk.injEq]
    refine ⟨by simp [countSome]; omega, ?_⟩
    rw [List.length_cons, List.range_succ_eq_map, List.map_cons, List.map_map]
    have hhead : (if ((some r :: rest).getD 0 none).isSome then
        k + countSomeBefore (some r :: rest) 0 else 0) = k := by
      simp [countSomeBefore]
    rw [hhead]
    refine congrArg (k :: ·) ?_
    refine List.map_congr_left fun i _ => ?_
    simp only [Function.comp_apply, List.getD_cons_succ]
    rw [show countSomeBefore (some r :: rest) (i + 1) =
      1 + countSomeBefore rest i by simp [countSomeBefore]]
    split
    · omega
    · rfl
  | none :: rest, k, h => by
    have ih := rootsLoopAux_ok storage n0 n1 ti0 ti1 reduce rest k
      (fun i r' hr' => by
        have hh := h (i + 1) r' (by simpa using hr')
        rw [show countSomeBefore (none :: rest) (i + 1) =
          countSomeBefore rest i by simp [countSomeBefore]] at hh
        exact hh)
    unfold rootsLoopAux
    rw [ih]
    dsimp only
    simp only [Except.ok.injEq, Prod.mk.injEq]
    refine ⟨by simp [countSome], ?_⟩
    rw [List.length_cons, List.range_succ_eq_map, List.map_cons, List.map_map]
    have hhead : (if ((none :: rest).getD 0 none).isSome then
        k + countSomeBefore (none :: rest) 0 else 0) = 0 := by
      simp
    rw [hhead]
    refine congrArg (0 :: ·) ?_
    refine List.map_congr_left fun i _ => ?_
    simp only [Function.comp_apply, List.getD_cons_succ]
    rw [show countSomeBefore (none :: rest) (i + 1) =
      countSomeBefore rest i by simp [countSomeBefore]]

/-- Helper: the inner duplicate loop yields `ok` or the
`InvalidPublicInputs` error. -/
theorem innerDupAux_cases (nh tIdx : List Nat) (i : Nat) :
    ∀ js, innerDupAux nh tIdx i js = .ok () ∨
      innerDupAux nh tIdx i js = .error (.prog .InvalidPublicInputs)
  | [] => Or.inl rfl
  | j :: rest => by
    unfold innerDupAux
    split
    · exact innerDupAux_cases nh tIdx i rest
    · split
      · split
        · exact innerDupAux_cases nh tIdx i rest
        · exact Or.inr rfl
      · exact innerDupAux_cases nh tIdx i rest

/-- Helper: the inner duplicate loop accepts index `i` exactly when every
equal hash at another visited index sits in a different slot. -/
theorem innerDupAux_ok_iff (nh tIdx : List Nat) (i : Nat) :
    ∀ js, innerDupAux nh tIdx i js = .ok () ↔
      ∀ j ∈ js, i ≠ j → nh.getD i 0 = nh.getD j 0 →
        tIdx.getD i 0 ≠ tIdx.getD j 0
  | [] => by simp [innerDupAux]
  | j :: rest => by
    unfold innerDupAux
    rw [List.forall_mem_cons]
    split
    · rename_i hij
      rw [innerDupAux_ok_iff nh tIdx i rest]
      constructor
      · intro hr
        exact ⟨fun hne _ => absurd hij hne, hr⟩
      · intro hh
        exact hh.2
    · split
      · rename_i hij heq
        split
        · rename_i hti
          rw [innerDupAux_ok_iff nh tIdx i rest]
          constructor
          · intro hr
            exact ⟨fun _ _ => hti, hr⟩
          · intro hh
            exact hh.2
        · rename_i hti
          constructor
          · intro hcontra
            exact absurd hcontra (by simp)
          · intro hh
            exact absurd (hh.1 hij heq) hti
      · rename_i hij hne
        rw [innerDupAux_ok_iff nh tIdx i rest]
        constructor
        · intro hr
          exact ⟨fun _ hq => absurd hq hne, hr⟩
        · intro hh
          exact hh.2

/-- Helper: with fresh nullifiers (`can_insert` always true) and in-range
slots, the outer loop accepts exactly when every visited index passes the
duplicate check, and its only failure is `InvalidPublicInputs`. -/
theorem nullifierChecksAux_ok (n0 n1 : NullifierModel) (reduce : Nat → Nat)
    (nh tIdx : List Nat)
    (hcan0 : ∀ x, n0.canInsert x = true) (hcan1 : ∀ x, n1.canInsert x = true)
    (hlt : ∀ i, tIdx.getD i 0 < 2) :
    ∀ is, (nullifierChecksAux n0 n1 reduce nh tIdx is = .ok () ↔
        ∀ i ∈ is, innerDupAux nh tIdx i (List.range nh.length) = .ok ()) ∧
      (nullifierChecksAux n0 n1 reduce nh tIdx is = .ok () ∨
        nullifierChecksAux n0 n1 reduce nh tIdx is =
          .error (.prog .InvalidPublicInputs))
  | [] => by simp [nullifierChecksAux]
  | i :: rest => by
    have ih := nullifierChecksAux_ok n0 n1 reduce nh tIdx hcan0 hcan1 hlt rest
    unfold nullifierChecksAux
    rcases innerDupAux_cases nh tIdx i (List.range nh.length) with hd | hd
    · rw [hd]
      dsimp only
      rw [if_neg (by have := hlt i; omega)]
      have hins : (if tIdx.getD i 0 = 0 then n0 else n1).canInsert
          (reduce (nh.getD i 0)) = true := by
        split
        · exact hcan0 _
        · exact hcan1 _
      rw [if_pos hins]
      constructor
      · rw [List.forall_mem_cons, ih.1]
        constructor
        · intro hr
          exact ⟨hd, hr⟩
        · intro hh
          exact hh.2
      · exact ih.2
    · rw [hd]
      dsimp only
      constructor
      · constructor
        · intro hcontra
          exact absurd hcontra (by simp)
        · intro hall
          have := hall i (List.mem_cons_self i rest)
          rw [hd] at this
          exact absurd this (by simp)
      · exact Or.inr rfl

/-- C5: under the checker's preconditions (non-zero commitment, `Some` first
root, matching lengths, every `Some` root validating in its slot, at most two
slots with distinct tree indices when two are used, and all nullifier hashes
fresh), `check_join_split_public_inputs` rejects with `InvalidPublicInputs`
whenever two equal nullifier hashes are assigned to the same tree slot (slot
assignment: each `Some` root opens the next slot, a `None` root inherits slot
0), and accepts when every pair of equal hashes is assigned to distinct
slots. -/
theorem check_join_split_nullifier_uniqueness
    (zeroC : Nat) (reduce : Nat → Nat) (storage : StorageModel)
    (n0 n1 : NullifierModel) (ti0 ti1 : Nat) (pi : JoinSplitPublicInputs)
    (hcommit : pi.commitment ≠ zeroC)
    (hroots0 : (pi.roots.getD 0 none).isSome)
    (hlen1 : pi.nullifierHashes.length = pi.commitmentCount)
    (hlen2 : pi.roots.length = pi.commitmentCount)
    (hvalid : ∀ i r, pi.roots.getD i none = some r →
      countSomeBefore pi.roots i < 2 ∧
      rootOk storage n0 n1 ti0 ti1 reduce (countSomeBefore pi.roots i) r =
        true)
    (hcap : countSome pi.roots ≤ 2)
    (hdistinct : 1 < countSome pi.roots → ti0 ≠ ti1)
    (hcan0 : ∀ x, n0.canInsert x = true)
    (hcan1 : ∀ x, n1.canInsert x = true) :
    ((∃ i j, i < pi.nullifierHashes.length ∧ j < pi.nullifierHashes.length ∧
        i ≠ j ∧ pi.nullifierHashes.getD i 0 = pi.nullifierHashes.getD j 0 ∧
        slotOf pi.roots i = slotOf pi.roots j) →
      checkJoinSplitPublicInputs zeroC reduce storage n0 n1 ti0 ti1 pi =
        .error (.prog .InvalidPublicInputs)) ∧
    ((∀ i j, i < pi.nullifierHashes.length → j < pi.nullifierHashes.length →
        i ≠ j → pi.nullifierHashes.getD i 0 = pi.nullifierHashes.getD j 0 →
        slotOf pi.roots i ≠ slotOf pi.roots j) →
      checkJoinSplitPublicInputs zeroC reduce storage n0 n1 ti0 ti1 pi =
        .ok ()) := by
  have hrlen0 : pi.roots.length ≠ 0 := by
    intro hz
    rw [List.length_eq_zero] at hz
    rw [hz] at hroots0
    simp at hroots0
  have hloop := rootsLoopAux_ok storage n0 n1 ti0 ti1 reduce pi.roots 0
    (fun i r hr => by
      have := hvalid i r hr
      rw [Nat.zero_add]
      exact this)
  have htid : ((List.range pi.roots.length).map fun i =>
      if (pi.roots.getD i none).isSome then 0 + countSomeBefore pi.roots i
      else 0) = (List.range pi.roots.length).map (slotOf pi.roots) := by
    refine List.map_congr_left fun i _ => ?_
    unfold slotOf
    rw [Nat.zero_add]
  rw [htid, Nat.zero_add] at hloop
  have hnotri : ¬ (1 < countSome pi.roots ∧ ti0 = ti1) := by
    intro hh
    exact absurd hh.2 (hdistinct hh.1)
  have hlt : ∀ i, ((List.range pi.roots.length).map (slotOf pi.roots)).getD
      i 0 < 2 := by
    intro i
    by_cases hi : i < pi.roots.length
    · rw [getD_range_map _ _ _ _ hi]
      unfold slotOf
      rcases hsome : pi.roots.getD i none with _ | r
      · simp
      · rw [if_pos (show (some r).isSome = true from rfl)]
        exact (hvalid i r hsome).1
    · have hge : ((List.range pi.roots.length).map (slotOf pi.roots)).length
          ≤ i := by
        simpa using Nat.le_of_not_lt hi
      rw [List.getD_eq_getElem?_getD, List.getElem?_eq_none hge]
      simp
  have hnotnone : ¬ ((pi.roots.getD 0 none).isNone = true) := by
    rcases hx : pi.roots.getD 0 none with _ | v
    · rw [hx] at hroots0
      simp at hroots0
    · simp
  have hrun : checkJoinSplitPublicInputs zeroC reduce storage n0 n1 ti0 ti1 pi
      = nullifierChecksAux n0 n1 reduce pi.nullifierHashes
        ((List.range pi.roots.length).map (slotOf pi.roots))
        (List.range pi.nullifierHashes.length) := by
    have hl1 : ¬ (pi.nullifierHashes.length ≠ pi.commitmentCount) :=
      fun hq => hq hlen1
    have hl2 : ¬ (pi.roots.length ≠ pi.commitmentCount) := fun hq => hq hlen2
    have hg1 : ¬ ¬ (0 < countSome pi.roots ∧ countSome pi.roots ≤ 2) :=
      not_not.mpr ⟨countSome_pos_of_head _ hroots0, hcap⟩
    have hg2 : ¬ ¬ (countSome pi.roots ≤ 2) := not_not.mpr hcap
    unfold checkJoinSplitPublicInputs
    rw [if_neg hcommit, if_neg hrlen0, if_neg hnotnone, if_neg hl1,
      if_neg hl2, hloop]
    dsimp only
    rw [if_neg hg1, if_neg hnotnone, if_neg hg2, if_neg hnotri]
  have hcore := nullifierChecksAux_ok n0 n1 reduce pi.nullifierHashes
    ((List.range pi.roots.length).map (slotOf pi.roots)) hcan0 hcan1 hlt
    (List.range pi.nullifierHashes.length)
  have hgetd : ∀ i, i < pi.nullifierHashes.length →
      ((List.range pi.roots.length).map (slotOf pi.roots)).getD i 0 =
        slotOf pi.roots i := by
    intro i hi
    exact getD_range_map _ _ _ _ (by omega)
  constructor
  · rintro ⟨i, j, hi, hj, hij, hheq, hslots⟩
    rw [hrun]
    rcases hcore.2 with hok | herr
    · exfalso
      have hall := hcore.1.mp hok
      have hdup := (innerDupAux_ok_iff pi.nullifierHashes _ i _).mp
        (hall i (List.mem_range.mpr hi)) j (List.mem_range.mpr hj) hij hheq
      rw [hgetd i hi, hgetd j hj] at hdup
      exact hdup hslots
    · exact herr
  · intro hsep
    rw [hrun]
    refine hcore.1.mpr ?_
    intro i hmi
    have hi := List.mem_range.mp hmi
    refine (innerDupAux_ok_iff pi.nullifierHashes _ i _).mpr ?_
    intro j hmj hij hheq
    have hj := List.mem_range.mp hmj
    rw [hgetd i hi, hgetd j hj]
    exact hsep i j hi hj hij hheq

/-- Witness for C5: a concrete request with two equal nullifier hashes in
slot 0 (`roots = [Some 10, None]`, both hashes 4) is rejected with
`InvalidPublicInputs` although all roots validate and the hashes are
fresh. -/
theorem check_join_split_nullifier_uniqueness_witness :
    checkJoinSplitPublicInputs 0 (fun n => n) ⟨0, fun _ => true⟩
        ⟨0, fun _ => true⟩ ⟨0, fun _ => true⟩ 0 1
        ⟨2, [some 10, none], [4, 4], 1, 0, 0, 0, 0⟩ =
      .error (.prog .InvalidPublicInputs) :=
  (check_join_split_nullifier_uniqueness 0 (fun n => n) ⟨0, fun _ => true⟩
      ⟨0, fun _ => true⟩ ⟨0, fun _ => true⟩ 0 1
      ⟨2, [some 10, none], [4, 4], 1, 0, 0, 0, 0⟩
      (by decide) (by decide) rfl rfl
      (by
        intro i r h
        rcases i with _ | _ | i
        · simp only [List.getD_cons_zero] at h
          injection h with hr
          subst hr
          exact ⟨by decide, by decide⟩
        · simp at h
        · simp at h)
      (by decide) (by decide) (fun _ => rfl) (fun _ => rfl)).1
    ⟨0, 1, by decide, by decide, by decide, by decide, by decide⟩

end Elusiv
